import Mathlib

/-!
Verification of the cc-zol authentication core (`src/auth/database.py`,
`src/api/auth_routes.py`, `src/api/admin_routes.py`) against its
natural-language specification.

Modelling conventions:
* A MongoDB document of the `users` collection is a `UserDoc`: every field
  except `email` is optional, `none` standing for an absent or null field
  (the store is schemaless, and the code treats null and absent alike
  through Python truthiness / `dict.get`).
* The database is the list of documents in insertion order; `update_one`
  touches the first matching document, `upsert` appends.
* Time is `Nat` seconds since the epoch; `datetime.utcnow()` becomes an
  explicit `now` argument, `timedelta(minutes=10)` is `600`.
* Randomness (`secrets.randbelow`, `secrets.token_hex`) becomes explicit
  arguments: the pre-generated code string, and the entropy bytes fed to
  the hex rendering.
* Python truthiness of an optional string (`if not user.verification_code`)
  is `(o.getD "").isEmpty`: true for absent, null and empty strings.
-/

/-- Lowercasing used on every email before storage and lookup
(`email.lower()`). -/
def lower (s : String) : String := String.mk (s.data.map Char.toLower)

/-- A document of the `users` collection.  `none` = field absent or null. -/
structure UserDoc where
  email : String
  verification_code : Option String := none
  verification_code_expires : Option Nat := none
  intercept_token : Option String := none
  verified : Option Bool := none
  active : Option Bool := none
  created_at : Option Nat := none
  last_logged_in : Option Nat := none
deriving DecidableEq, Repr

/-- The pydantic `User` model (`src/auth/models.py`): reading a document
fills in the defaults `verified=False`, `active=True`. -/
structure User where
  email : String
  verification_code : Option String
  verification_code_expires : Option Nat
  intercept_token : Option String
  verified : Bool
  active : Bool
  last_logged_in : Option Nat
deriving DecidableEq, Repr

/-- `User(**doc)`: pydantic validation of a stored document, applying the
model defaults (`verified = False`, `active = True` when absent). -/
def docToUser (d : UserDoc) : User :=
  { email := d.email
    verification_code := d.verification_code
    verification_code_expires := d.verification_code_expires
    intercept_token := d.intercept_token
    verified := d.verified.getD false
    active := d.active.getD true
    last_logged_in := d.last_logged_in }

/-- Python truthiness of an `Optional[str]`: false for absent, null and
empty. -/
def optStrTruthy (o : Option String) : Bool := !(o.getD "").isEmpty

/-- `find_one({"email": email.lower()})` (`get_user_by_email`). -/
def findDocByEmail (db : List UserDoc) (email : String) : Option UserDoc :=
  db.find? (fun d => d.email == lower email)

/-- `update_one(filter_by_email, {"$set": f})`: rewrite the first document
whose email matches, report whether the write changed it
(`modified_count > 0`). -/
def applyFirst (em : String) (f : UserDoc → UserDoc) :
    List UserDoc → List UserDoc × Bool
  | [] => ([], false)
  | d :: rest =>
    if d.email == em then ((f d) :: rest, f d ≠ d)
    else
      let r := applyFirst em f rest
      (d :: r.1, r.2)

/-- The lowercase hexadecimal digit for `n < 16` (`"%x"` formatting). -/
def hexDigit (n : Nat) : Char :=
  if n < 10 then Char.ofNat (48 + n) else Char.ofNat (87 + n)

/-- The two lowercase hex digits of one byte. -/
def byteHex (b : Nat) : List Char := [hexDigit (b / 16 % 16), hexDigit (b % 16)]

/-- `secrets.token_hex`: render the entropy bytes as lowercase hex. -/
def token_hex (bytes : List Nat) : String := String.mk ((bytes.map byteHex).flatten)

/-- `_generate_token`: `secrets.token_hex(TOKEN_LENGTH // 2)` with
`TOKEN_LENGTH = 64`, i.e. 32 entropy bytes rendered as hex. -/
def generate_token (entropy : List Nat) : String := token_hex entropy

/-- Lowercase hexadecimal alphabet. -/
def isLowerHexChar (c : Char) : Bool :=
  (decide (48 ≤ c.toNat) && decide (c.toNat ≤ 57)) ||
  (decide (97 ≤ c.toNat) && decide (c.toNat ≤ 102))

/-- `create_or_update_verification(email)` with the freshly generated
6-digit `code` and the call time `now` made explicit.  A single upsert:
`$set` code and expiry; on insert additionally `email`, `verified=False`,
`created_at=now` (`$setOnInsert`).  Returns the new state and the code. -/
def create_or_update_verification (db : List UserDoc) (email code : String)
    (now : Nat) : List UserDoc × String :=
  let em := lower email
  if (db.find? (fun d => d.email == em)).isSome then
    ((applyFirst em (fun d =>
        { d with verification_code := some code
                 verification_code_expires := some (now + 600) }) db).1, code)
  else
    (db ++ [{ email := em
              verification_code := some code
              verification_code_expires := some (now + 600)
              verified := some false
              created_at := some now }], code)

/-- The token issued by the success branch of `verify_code`:
`user.intercept_token if user.intercept_token else self._generate_token()`. -/
def verifyToken (d : UserDoc) (entropy : List Nat) : String :=
  if optStrTruthy d.intercept_token then d.intercept_token.getD ""
  else generate_token entropy

/-- The `$set` document written by the success branch of `verify_code`. -/
def verifySuccessSet (token : String) (now : Nat) (d : UserDoc) : UserDoc :=
  { d with intercept_token := some token
           verified := some true
           verification_code := none
           verification_code_expires := none
           last_logged_in := some now }

/-- `verify_code(email, code)` with the call time `now` and the token
entropy made explicit.  Returns the new state and the token (`none` on any
failed precondition). -/
def verify_code (db : List UserDoc) (email code : String) (now : Nat)
    (entropy : List Nat) : List UserDoc × Option String :=
  let em := lower email
  match findDocByEmail db email with
  | none => (db, none)
  | some d =>
    let u := docToUser d
    if !u.active then (db, none)
    else if !optStrTruthy u.verification_code ||
            u.verification_code_expires.isNone then (db, none)
    else if u.verification_code != some code then (db, none)
    else if u.verification_code_expires.getD 0 < now then (db, none)
    else
      let token := verifyToken d entropy
      ((applyFirst em (verifySuccessSet token now) db).1, some token)

/-- The admin list entry built by `list_users`: the document with the token
field redacted in place, plus the `has_token` flag. -/
structure ListedUser where
  doc : UserDoc
  has_token : Bool
deriving DecidableEq, Repr

/-- The in-place redaction of one document in `list_users`:
`doc["intercept_token"][:8] + "..."` and `has_token` when the token is
truthy, untouched otherwise. -/
def redactToken (t : String) : String :=
  String.mk (t.data.take 8 ++ ['.', '.', '.'])

def redact (d : UserDoc) : ListedUser :=
  if optStrTruthy d.intercept_token then
    ⟨{ d with intercept_token := some (redactToken (d.intercept_token.getD "")) },
     true⟩
  else ⟨d, false⟩

/-- `list_users()`: every stored document, redacted. -/
def list_users (db : List UserDoc) : List ListedUser := db.map redact

/-- A value of an admin update dictionary: a boolean, a string, or null. -/
inductive FieldVal where
  | b : Bool → FieldVal
  | s : String → FieldVal
  | null : FieldVal
deriving DecidableEq, Repr

/-- Python truthiness of an update value. -/
def fieldTruthy : FieldVal → Bool
  | .b x => x
  | .s t => !t.isEmpty
  | .null => false

/-- An update dictionary in insertion order (keys are unique in Python). -/
def Updates := List (String × FieldVal)

/-- Dictionary lookup. -/
def lookupKey (u : List (String × FieldVal)) (k : String) : Option FieldVal :=
  (u.find? (fun kv => kv.1 == k)).map (fun kv => kv.2)

/-- Python dictionary assignment `u[k] = v`: replace the existing entry in
place, or append. -/
def setKey : List (String × FieldVal) → String → FieldVal →
    List (String × FieldVal)
  | [], k, v => [(k, v)]
  | kv :: rest, k, v =>
    if kv.1 == k then (k, v) :: rest else kv :: setKey rest k v

/-- `$set` of a single key on a document.  A value whose type does not fit
the field leaves the field unchanged (such writes never arise from the
typed admin routes). -/
def setField (d : UserDoc) (kv : String × FieldVal) : UserDoc :=
  if kv.1 = "active" then
    match kv.2 with
    | .b x => { d with active := some x }
    | .null => { d with active := none }
    | .s _ => d
  else if kv.1 = "verified" then
    match kv.2 with
    | .b x => { d with verified := some x }
    | .null => { d with verified := none }
    | .s _ => d
  else if kv.1 = "intercept_token" then
    match kv.2 with
    | .s t => { d with intercept_token := some t }
    | .null => { d with intercept_token := none }
    | .b _ => d
  else if kv.1 = "email" then
    match kv.2 with
    | .s t => { d with email := t }
    | _ => d
  else if kv.1 = "verification_code" then
    match kv.2 with
    | .s t => { d with verification_code := some t }
    | .null => { d with verification_code := none }
    | .b _ => d
  else d

/-- `$set` of a whole update dictionary. -/
def applySet (d : UserDoc) (u : List (String × FieldVal)) : UserDoc :=
  u.foldl setField d

/-- `update_user`'s allow-list. -/
def allowed_fields : List String := ["active", "verified", "intercept_token"]

/-- The effective update set of `update_user`: filter the payload to the
allow-list, then force `verified=True` whenever the payload carries a
truthy `intercept_token`. -/
def effective_updates (updates : List (String × FieldVal)) :
    List (String × FieldVal) :=
  let safe := updates.filter (fun kv => allowed_fields.contains kv.1)
  if (lookupKey safe "intercept_token").any fieldTruthy then
    setKey safe "verified" (.b true)
  else safe

/-- `update_user(email, updates)`: allow-list filter, token-implies-verified
rule, reject an empty effective set, else one `$set` on the matching
document; success is `modified_count > 0`. -/
def update_user (db : List UserDoc) (email : String)
    (updates : List (String × FieldVal)) : List UserDoc × Bool :=
  let em := lower email
  let safe := effective_updates updates
  if safe.isEmpty then (db, false)
  else applyFirst em (fun d => applySet d safe) db

/-- The body of `PATCH /admin/api/users/{email}` (`UserUpdate` with
`exclude_none=True`): each field is either absent or a typed value. -/
structure UserUpdatePayload where
  active : Option Bool := none
  verified : Option Bool := none
  intercept_token : Option String := none
deriving DecidableEq, Repr

/-- `updates.model_dump(exclude_none=True)` in field order. -/
def model_dump (p : UserUpdatePayload) : List (String × FieldVal) :=
  (match p.active with | some a => [("active", FieldVal.b a)] | none => []) ++
  (match p.verified with | some v => [("verified", FieldVal.b v)] | none => []) ++
  (match p.intercept_token with
   | some t => [("intercept_token", FieldVal.s t)] | none => [])

/-- Outcome of an admin route. -/
inductive AdminResult where
  | ok
  | badRequest
  | notFound
deriving DecidableEq, Repr

/-- The `PATCH /admin/api/users/{email}` route: 400 on an empty dumped
payload, then `update_user`; 404 when it reports no modification. -/
def route_update_user (db : List UserDoc) (email : String)
    (p : UserUpdatePayload) : List UserDoc × AdminResult :=
  let updates := model_dump p
  if updates.isEmpty then (db, .badRequest)
  else
    let r := update_user db email updates
    if r.2 then (r.1, .ok) else (r.1, .notFound)

/-- `create_preconfigured_user(email, token, active)` on a fresh email:
insert the document with the pre-set token, `verified=False` and the given
`active` flag (the existing-email conflict branch is not modelled here;
the scenarios below only use fresh emails). -/
def create_preconfigured_user (db : List UserDoc) (email token : String)
    (active : Bool) (now : Nat) : List UserDoc :=
  db ++ [{ email := lower email
           intercept_token := some token
           verified := some false
           active := some active
           created_at := some now }]

/-- Python `str.strip()`-whitespace (the ASCII subset). -/
def isStripChar (c : Char) : Bool :=
  c == ' ' || c == '\t' || c == '\n' || c == '\r' ||
  c == Char.ofNat 11 || c == Char.ofNat 12

/-- Python `str.strip()`: drop leading and trailing whitespace. -/
def pyStrip (s : String) : String :=
  String.mk (((s.data.dropWhile isStripChar).reverse.dropWhile
    isStripChar).reverse)

/-- The `POST /auth/verify` route body: lowercase the email (the database
layer lowercases again), strip the submitted code, then call
`verify_code`. -/
def route_verify_code (db : List UserDoc) (email code : String) (now : Nat)
    (entropy : List Nat) : List UserDoc × Option String :=
  verify_code db email (pyStrip code) now entropy

/-- The document fields outside `update_user`'s allow-list: an update must
leave `email`, the verification code and expiry, `created_at` and
`last_logged_in` exactly as they were. -/
def nonAllowedFrame (d d2 : UserDoc) : Prop :=
  d2.email = d.email ∧ d2.verification_code = d.verification_code ∧
  d2.verification_code_expires = d.verification_code_expires ∧
  d2.created_at = d.created_at ∧ d2.last_logged_in = d.last_logged_in

/-! ## Helper lemmas -/

theorem find?_split {α : Type} {p : α → Bool} {l : List α} {a : α}
    (h : l.find? p = some a) :
    ∃ pre post, l = pre ++ a :: post ∧ (∀ x ∈ pre, p x = false) ∧ p a = true := by
  induction l with
  | nil => simp [List.find?] at h
  | cons x xs ih =>
    by_cases hx : p x = true
    · rw [List.find?_cons_of_pos _ hx] at h
      cases h
      exact ⟨[], xs, rfl, by simp, hx⟩
    · rw [List.find?_cons_of_neg _ hx] at h
      obtain ⟨pre, post, rfl, hpre, hpa⟩ := ih h
      refine ⟨x :: pre, post, rfl, ?_, hpa⟩
      intro y hy
      rcases List.mem_cons.mp hy with rfl | hy
      · simpa using hx
      · exact hpre y hy

theorem find?_append_none {α : Type} {p : α → Bool} {pre : List α}
    (h : ∀ x ∈ pre, p x = false) (l : List α) :
    (pre ++ l).find? p = l.find? p := by
  induction pre with
  | nil => rfl
  | cons x xs ih =>
    rw [List.cons_append, List.find?_cons_of_neg]
    · exact ih (fun y hy => h y (List.mem_cons_of_mem _ hy))
    · simp [h x (List.mem_cons_self _ _)]

theorem applyFirst_of_not_mem {em : String} {f : UserDoc → UserDoc} :
    ∀ {db : List UserDoc}, (∀ x ∈ db, x.email ≠ em) →
      applyFirst em f db = (db, false) := by
  intro db
  induction db with
  | nil => intro _; rfl
  | cons d rest ih =>
    intro h
    have hd : (d.email == em) = false := by
      simpa using h d (List.mem_cons_self _ _)
    simp only [applyFirst, hd, Bool.false_eq_true, if_false]
    rw [ih (fun y hy => h y (List.mem_cons_of_mem _ hy))]

theorem applyFirst_split {em : String} {f : UserDoc → UserDoc}
    {pre : List UserDoc} (hpre : ∀ x ∈ pre, x.email ≠ em)
    {d : UserDoc} (hd : d.email = em) (post : List UserDoc) :
    applyFirst em f (pre ++ d :: post) =
      (pre ++ f d :: post, decide ¬(f d = d)) := by
  induction pre with
  | nil =>
    simp only [List.nil_append, applyFirst, beq_iff_eq, hd, if_true]
  | cons x xs ih =>
    have hx : (x.email == em) = false := by
      simpa using hpre x (List.mem_cons_self _ _)
    simp only [List.cons_append, applyFirst, hx, Bool.false_eq_true, if_false,
      List.append_eq]
    rw [ih (fun y hy => hpre y (List.mem_cons_of_mem _ hy))]

/-! ## Facts about the generated token -/

theorem hexDigit_lowerHex : ∀ n, n < 16 → isLowerHexChar (hexDigit n) = true := by
  decide

theorem byteHex_lowerHex (b : Nat) : ∀ c ∈ byteHex b, isLowerHexChar c = true := by
  intro c hc
  simp only [byteHex, List.mem_cons, List.not_mem_nil, or_false] at hc
  rcases hc with rfl | rfl
  · exact hexDigit_lowerHex _ (Nat.mod_lt _ (by decide))
  · exact hexDigit_lowerHex _ (Nat.mod_lt _ (by decide))

theorem token_hex_length (bytes : List Nat) :
    (token_hex bytes).length = 2 * bytes.length := by
  show ((bytes.map byteHex).flatten).length = 2 * bytes.length
  induction bytes with
  | nil => rfl
  | cons b bs ih =>
    simp only [List.map_cons, List.flatten_cons, List.length_append,
      List.length_cons, byteHex, List.length_nil] at ih ⊢
    omega

theorem token_hex_chars (bytes : List Nat) :
    (token_hex bytes).data.all isLowerHexChar = true := by
  show ((bytes.map byteHex).flatten).all isLowerHexChar = true
  rw [List.all_eq_true]
  intro c hc
  obtain ⟨l, hl, hcl⟩ := List.mem_flatten.mp hc
  obtain ⟨b, _, rfl⟩ := List.mem_map.mp hl
  exact byteHex_lowerHex b c hcl

/-! ## Success and failure shapes of `verify_code` -/

theorem verify_code_shape (db : List UserDoc) (email code : String)
    (now : Nat) (entropy : List Nat) :
    verify_code db email code now entropy = (db, none) ∨
    ∃ d, findDocByEmail db email = some d ∧
      d.active.getD true = true ∧
      d.verification_code = some code ∧
      code ≠ "" ∧
      (∃ e, d.verification_code_expires = some e ∧ now ≤ e) ∧
      verify_code db email code now entropy =
        ((applyFirst (lower email)
            (verifySuccessSet (verifyToken d entropy) now) db).1,
         some (verifyToken d entropy)) := by
  unfold verify_code
  cases hf : findDocByEmail db email with
  | none => exact Or.inl rfl
  | some d =>
    simp only [docToUser]
    by_cases h1 : d.active.getD true = true
    case neg => rw [if_pos (by simp [h1])]; exact Or.inl rfl
    rw [if_neg (by simp [h1])]
    by_cases h2 : (!optStrTruthy d.verification_code ||
        d.verification_code_expires.isNone) = true
    case pos => rw [if_pos h2]; exact Or.inl rfl
    rw [if_neg h2]
    by_cases h3 : (d.verification_code != some code) = true
    case pos => rw [if_pos h3]; exact Or.inl rfl
    rw [if_neg h3]
    by_cases h4 : d.verification_code_expires.getD 0 < now
    case pos => rw [if_pos (by simpa using h4)]; exact Or.inl rfl
    rw [if_neg (by simpa using h4)]
    refine Or.inr ⟨d, rfl, h1, ?_, ?_, ?_, rfl⟩
    · have h3' : (d.verification_code == some code) = true := by
        simpa [bne] using h3
      exact beq_iff_eq.mp h3'
    · have h3' : d.verification_code = some code := by
        have : (d.verification_code == some code) = true := by
          simpa [bne] using h3
        exact beq_iff_eq.mp this
      intro hc0
      rw [hc0] at h3'
      simp [optStrTruthy, h3'] at h2
      exact absurd h2.1 (by decide)
    · rcases hee : d.verification_code_expires with _ | e
      · simp [hee] at h2
      · refine ⟨e, rfl, ?_⟩
        rw [hee] at h4
        simpa using h4

theorem isEmpty_false_of_ne {s : String} (h : s ≠ "") : s.isEmpty = false := by
  cases he : s.isEmpty
  · rfl
  · exact absurd ((String.isEmpty_iff _).mp he) h

theorem verify_code_some_intro {db : List UserDoc} {email code : String}
    {now : Nat} {entropy : List Nat} {d : UserDoc}
    (hf : findDocByEmail db email = some d)
    (h1 : d.active.getD true = true)
    (hc : d.verification_code = some code) (hcne : code ≠ "")
    {e : Nat} (he : d.verification_code_expires = some e) (hnow : now ≤ e) :
    (verify_code db email code now entropy).2 = some (verifyToken d entropy) := by
  unfold verify_code
  rw [hf]
  simp only [docToUser]
  rw [if_neg (by simp [h1])]
  rw [if_neg (by simp [optStrTruthy, hc, he, String.isEmpty_iff, hcne])]
  rw [if_neg (by simp [hc])]
  rw [if_neg (by simp [he]; omega)]

/-- C6: whenever `verify_code` fails (any of the five preconditions is
violated), the stored user set is returned completely unchanged — in
particular the stored verification code and expiry are retained, so a retry
with the correct code remains possible. -/
theorem verifyCode_failure_frame (db : List UserDoc) (email code : String)
    (now : Nat) (entropy : List Nat)
    (h : (verify_code db email code now entropy).2 = none) :
    (verify_code db email code now entropy).1 = db := by
  rcases verify_code_shape db email code now entropy with hs | ⟨d, _, _, _, _, _, hs⟩
  · rw [hs]
  · rw [hs] at h
    simp at h

theorem verifyCode_failure_frame_witness :
    (verify_code [⟨"a@b.com", some "123456", some 1000, none, none, none, none,
        none⟩] "a@b.com" "999999" 500 []).2 = none ∧
    (verify_code [⟨"a@b.com", some "123456", some 1000, none, none, none, none,
        none⟩] "a@b.com" "999999" 500 []).1 =
      [⟨"a@b.com", some "123456", some 1000, none, none, none, none, none⟩] :=
  ⟨by decide, verifyCode_failure_frame _ _ _ _ _ (by decide)⟩

/-- C1: `verify_code(email, code)` returns a token exactly when the five
ordered preconditions hold: a user with the lowercased email exists, its
`active` flag is true (absence counting as true), a verification code and
an expiry are stored, the submitted code equals the stored code by exact
string match, and `now <= expires_at` (equality still succeeding, so it
succeeds at `now == expires_at` and fails one second later).  Every failure
is the single indistinguishable `None` outcome.  The hypothesis is the
data-model invariant that a stored verification code is a 6-digit numeric
string, hence never the empty string. -/
theorem verifyCode_success_iff (db : List UserDoc) (email code : String)
    (now : Nat) (entropy : List Nat)
    (hinv : ∀ d ∈ db, d.verification_code ≠ some "") :
    (verify_code db email code now entropy).2.isSome = true ↔
      ∃ d, findDocByEmail db email = some d ∧
        (docToUser d).active = true ∧
        d.verification_code.isSome = true ∧
        d.verification_code_expires.isSome = true ∧
        d.verification_code = some code ∧
        now ≤ d.verification_code_expires.getD 0 := by
  constructor
  · intro h
    rcases verify_code_shape db email code now entropy with
      hs | ⟨d, hf, h1, hc, _, ⟨e, he, hne⟩, hs⟩
    · rw [hs] at h
      simp at h
    · exact ⟨d, hf, h1, by simp [hc], by simp [he], hc, by simp [he, hne]⟩
  · rintro ⟨d, hf, h1, _, hes, hc, hexp⟩
    obtain ⟨e, he⟩ := Option.isSome_iff_exists.mp hes
    have hcne : code ≠ "" := by
      intro hc0
      exact hinv d (List.mem_of_find?_eq_some hf) (hc0 ▸ hc)
    have hs := @verify_code_some_intro db email code now entropy d hf h1 hc
      hcne e he (by simpa [he] using hexp)
    rw [hs]
    rfl

theorem verifyCode_success_iff_witness :
    ((verify_code [⟨"a@b.com", some "123456", some 1000, none, none, some true,
        none, none⟩] "a@b.com" "123456" 1000 []).2.isSome = true ↔
      ∃ d, findDocByEmail [⟨"a@b.com", some "123456", some 1000, none, none,
          some true, none, none⟩] "a@b.com" = some d ∧
        (docToUser d).active = true ∧
        d.verification_code.isSome = true ∧
        d.verification_code_expires.isSome = true ∧
        d.verification_code = some "123456" ∧
        1000 ≤ d.verification_code_expires.getD 0) :=
  verifyCode_success_iff _ _ _ _ _ (by decide)

/-- C2: on every successful `verify_code` the returned token equals the
stored `intercept_token` whenever that field is non-empty — so a
pre-provisioned user's token is re-issued verbatim, never regenerated by
the verify flow — and otherwise is the freshly generated value, exactly 64
lowercase hexadecimal characters; the same single update
(`verifySuccessSet`) stores that token, sets `verified=true`, clears the
code and expiry and sets `last_logged_in=now`. -/
theorem verifyCode_success_effects (db : List UserDoc) (email code : String)
    (now : Nat) (entropy : List Nat) (t : String)
    (hlen : entropy.length = 32)
    (h : (verify_code db email code now entropy).2 = some t) :
    ∃ pre d post,
      db = pre ++ d :: post ∧
      (∀ x ∈ pre, x.email ≠ lower email) ∧
      d.email = lower email ∧
      (∀ tok, d.intercept_token = some tok → tok ≠ "" → t = tok) ∧
      (optStrTruthy d.intercept_token = false →
        t = generate_token entropy ∧ t.length = 64 ∧
        t.data.all isLowerHexChar = true) ∧
      (verify_code db email code now entropy).1 =
        pre ++ verifySuccessSet t now d :: post := by
  rcases verify_code_shape db email code now entropy with
    hs | ⟨d, hf, _, _, _, _, hs⟩
  · rw [hs] at h
    simp at h
  · have ht : t = verifyToken d entropy := by
      rw [hs] at h
      simpa using h.symm
    obtain ⟨pre, post, hdb, hpre, hpd⟩ := find?_split hf
    have hpre' : ∀ x ∈ pre, x.email ≠ lower email := fun x hx => by
      simpa using hpre x hx
    have hdem : d.email = lower email := by simpa using hpd
    refine ⟨pre, d, post, hdb, hpre', hdem, ?_, ?_, ?_⟩
    · intro tok htok hne
      rw [ht]
      unfold verifyToken
      rw [if_pos (by simp [optStrTruthy, htok, isEmpty_false_of_ne hne])]
      simp [htok]
    · intro hfalse
      have htt : t = generate_token entropy := by
        rw [ht]
        unfold verifyToken
        rw [if_neg (by simp [hfalse])]
      refine ⟨htt, ?_, ?_⟩
      · rw [htt]
        show (token_hex entropy).length = 64
        rw [token_hex_length, hlen]
      · rw [htt]
        exact token_hex_chars entropy
    · rw [hs]
      show (applyFirst (lower email) _ db).1 = _
      rw [hdb, applyFirst_split hpre' hdem post, ht]

theorem verifyCode_success_effects_witness :
    ∃ pre d post,
      [(⟨"a@b.com", some "123456", some 1000, some "sticky", none, none, none,
        none⟩ : UserDoc)] = pre ++ d :: post ∧
      (∀ x ∈ pre, x.email ≠ lower "a@b.com") ∧
      d.email = lower "a@b.com" ∧
      (∀ tok, d.intercept_token = some tok → tok ≠ "" → "sticky" = tok) ∧
      (optStrTruthy d.intercept_token = false →
        "sticky" = generate_token (List.replicate 32 0) ∧
        "sticky".length = 64 ∧
        "sticky".data.all isLowerHexChar = true) ∧
      (verify_code [⟨"a@b.com", some "123456", some 1000, some "sticky", none,
          none, none, none⟩] "a@b.com" "123456" 1000
          (List.replicate 32 0)).1 =
        pre ++ verifySuccessSet "sticky" 1000 d :: post :=
  verifyCode_success_effects _ _ _ _ _ _ (by decide) (by decide)

/-- C3 counterexample: a concrete user for which `verify_code` succeeds and
an immediate retry with the very same correct code then fails, refuting the
claim that repeated correct-code calls before the next `request_code`
succeed again. -/
theorem verifyCode_repeat_counterexample :
    (verify_code [⟨"a@b.com", some "123456", some 1000, some "tok1", none,
        none, none, none⟩] "a@b.com" "123456" 500 []).2 = some "tok1" ∧
    (verify_code (verify_code [⟨"a@b.com", some "123456", some 1000,
        some "tok1", none, none, none, none⟩] "a@b.com" "123456" 500 []).1
      "a@b.com" "123456" 501 []).2 = none := by decide

/-- C3 (amended): after one successful `verify_code` and before any
subsequent `request_code`, calling `verify_code` again with the same code
fails with the uniform `InvalidCode` outcome (at any later time and with
any entropy), because the success update cleared the stored code and
expiry. -/
theorem verifyCode_retry_fails (db : List UserDoc) (email code : String)
    (now now2 : Nat) (entropy entropy2 : List Nat) (t : String)
    (h : (verify_code db email code now entropy).2 = some t) :
    (verify_code (verify_code db email code now entropy).1 email code now2
        entropy2).2 = none := by
  rcases verify_code_shape db email code now entropy with
    hs | ⟨d, hf, h1, _, _, _, hs⟩
  · rw [hs] at h
    simp at h
  · obtain ⟨pre, post, hdb, hpre, hpd⟩ := find?_split hf
    have hpre' : ∀ x ∈ pre, x.email ≠ lower email := fun x hx => by
      simpa using hpre x hx
    have hdem : d.email = lower email := by simpa using hpd
    have hst : (verify_code db email code now entropy).1 =
        pre ++ verifySuccessSet (verifyToken d entropy) now d :: post := by
      rw [hs]
      show (applyFirst (lower email) _ db).1 = _
      rw [hdb, applyFirst_split hpre' hdem post]
    rw [hst]
    have hf2 : findDocByEmail
        (pre ++ verifySuccessSet (verifyToken d entropy) now d :: post)
        email = some (verifySuccessSet (verifyToken d entropy) now d) := by
      unfold findDocByEmail
      rw [find?_append_none hpre]
      exact List.find?_cons_of_pos _ (by simp [verifySuccessSet, hdem])
    unfold verify_code
    rw [hf2]
    simp only [docToUser, verifySuccessSet]
    rw [if_neg (by simp [h1])]
    rw [if_pos (by simp [optStrTruthy])]

theorem verifyCode_retry_fails_witness :
    (verify_code [⟨"x@y.com", some "654321", some 99, some "tk", none, none,
        none, none⟩] "x@y.com" "654321" 99 []).2 = some "tk" ∧
    (verify_code (verify_code [⟨"x@y.com", some "654321", some 99, some "tk",
        none, none, none, none⟩] "x@y.com" "654321" 99 []).1 "x@y.com"
        "654321" 200 []).2 = none :=
  ⟨by decide, verifyCode_retry_fails _ _ _ _ _ _ _ "tk" (by decide)⟩

/-- C4: for an existing user, `create_or_update_verification` always
succeeds and returns the generated code, and rewrites only
`verification_code` and `verification_code_expires` of the matched
document — the `{ d with ... }` update keeps `active`, `verified`,
`intercept_token`, `created_at` and `last_logged_in` — while every other
document is untouched. -/
theorem requestCode_existing_frame (db : List UserDoc) (email code : String)
    (now : Nat) (h : (findDocByEmail db email).isSome = true) :
    (create_or_update_verification db email code now).2 = code ∧
    ∃ pre d post,
      db = pre ++ d :: post ∧
      (∀ x ∈ pre, x.email ≠ lower email) ∧
      d.email = lower email ∧
      (create_or_update_verification db email code now).1 =
        pre ++ { d with verification_code := some code,
                        verification_code_expires := some (now + 600) }
          :: post := by
  obtain ⟨d0, hf⟩ := Option.isSome_iff_exists.mp h
  have hf' : db.find? (fun x => x.email == lower email) = some d0 := hf
  obtain ⟨pre, post, hdb, hpre, hpd⟩ := find?_split hf'
  have hpre' : ∀ x ∈ pre, x.email ≠ lower email := fun x hx => by
    simpa using hpre x hx
  have hdem : d0.email = lower email := by simpa using hpd
  constructor
  · simp only [create_or_update_verification]
    split <;> rfl
  · refine ⟨pre, d0, post, hdb, hpre', hdem, ?_⟩
    simp only [create_or_update_verification]
    rw [if_pos (by simp [hf'])]
    show (applyFirst (lower email) _ db).1 = _
    rw [hdb, applyFirst_split hpre' hdem post]

theorem requestCode_existing_frame_witness :
    (create_or_update_verification [⟨"a@b.com", some "111111", some 5,
        some "tk", some true, some false, some 1, some 2⟩] "A@b.com" "222222"
        100).2 = "222222" ∧
    ∃ pre d post,
      [(⟨"a@b.com", some "111111", some 5, some "tk", some true, some false,
        some 1, some 2⟩ : UserDoc)] = pre ++ d :: post ∧
      (∀ x ∈ pre, x.email ≠ lower "A@b.com") ∧
      d.email = lower "A@b.com" ∧
      (create_or_update_verification [⟨"a@b.com", some "111111", some 5,
          some "tk", some true, some false, some 1, some 2⟩] "A@b.com"
          "222222" 100).1 =
        pre ++ { d with verification_code := some "222222",
                        verification_code_expires := some (100 + 600) }
          :: post :=
  requestCode_existing_frame _ _ _ _ (by decide)

/-- C5 counterexample: on an empty store, `create_or_update_verification`
creates the record WITHOUT an `active` field (the `$setOnInsert` document
contains only `email`, `verified`, `created_at`, and the `$set` code and
expiry), refuting the claim that the record is created with
`active=true`. -/
theorem requestCode_active_field_counterexample :
    (create_or_update_verification [] "a@b.com" "123456" 0).1 =
      [⟨"a@b.com", some "123456", some 600, none, some false, none, some 0,
        none⟩] ∧
    ∀ d ∈ (create_or_update_verification [] "a@b.com" "123456" 0).1,
      d.active ≠ some true := by decide

/-- C5 (amended): for an email with no existing record,
`create_or_update_verification` creates the record with `verified=false`,
`created_at=now` and the new code and expiry; the `active` field is left
absent (not written by the upsert), and the absent field is read back as
`active=true` everywhere (pydantic default / `$ne false` filters). -/
theorem requestCode_creates_record (db : List UserDoc) (email code : String)
    (now : Nat) (h : findDocByEmail db email = none) :
    ∃ nd : UserDoc,
      (create_or_update_verification db email code now).1 = db ++ [nd] ∧
      (create_or_update_verification db email code now).2 = code ∧
      nd.email = lower email ∧
      nd.verification_code = some code ∧
      nd.verification_code_expires = some (now + 600) ∧
      nd.verified = some false ∧
      nd.created_at = some now ∧
      nd.active = none ∧
      nd.intercept_token = none ∧
      nd.last_logged_in = none ∧
      (docToUser nd).active = true := by
  refine ⟨{ email := lower email, verification_code := some code,
            verification_code_expires := some (now + 600),
            verified := some false, created_at := some now }, ?_,
    ?_, rfl, rfl, rfl, rfl, rfl, rfl, rfl, rfl, rfl⟩
  · have h' : db.find? (fun x => x.email == lower email) = none := h
    simp only [create_or_update_verification]
    rw [if_neg (by simp [h'])]
  · simp only [create_or_update_verification]
    split <;> rfl

theorem requestCode_creates_record_witness :
    ∃ nd : UserDoc,
      (create_or_update_verification [] "A@B.com" "424242" 50).1 = [] ++ [nd] ∧
      (create_or_update_verification [] "A@B.com" "424242" 50).2 = "424242" ∧
      nd.email = lower "A@B.com" ∧
      nd.verification_code = some "424242" ∧
      nd.verification_code_expires = some (50 + 600) ∧
      nd.verified = some false ∧
      nd.created_at = some 50 ∧
      nd.active = none ∧
      nd.intercept_token = none ∧
      nd.last_logged_in = none ∧
      (docToUser nd).active = true :=
  requestCode_creates_record _ _ _ _ (by decide)

/-- C7 counterexample: an admin-set 6-character token `"abc123"` (the
spec's own `updateUser` example value) is redacted to `"abc123..."`, which
contains the full secret as a substring — refuting the claim that
`list_users` never returns the full token secret. -/
theorem listUsers_short_token_counterexample :
    (list_users [⟨"a@b.com", none, none, some "abc123", none, none, none,
        none⟩]).map (fun lu => (lu.doc.intercept_token, lu.has_token)) =
      [(some "abc123...", true)] ∧
    "abc123".data <:+: "abc123...".data := by
  constructor
  · decide
  · decide

theorem redact_spec (d : UserDoc) :
    ((redact d).has_token = optStrTruthy d.intercept_token) ∧
    (optStrTruthy d.intercept_token = false → (redact d).doc = d) ∧
    (∀ tok, d.intercept_token = some tok → tok ≠ "" →
      (redact d).doc = { d with intercept_token := some (redactToken tok) } ∧
      (redactToken tok).data = tok.data.take 8 ++ ['.', '.', '.'] ∧
      (12 ≤ tok.length → ¬ tok.data <:+: (redactToken tok).data)) := by
  refine ⟨?_, ?_, ?_⟩
  · cases htr : optStrTruthy d.intercept_token <;> simp [redact, htr]
  · intro hfalse
    simp [redact, hfalse]
  · intro tok htok hne
    have htr : optStrTruthy d.intercept_token = true := by
      simp [optStrTruthy, htok, isEmpty_false_of_ne hne]
    refine ⟨by simp [redact, htok, optStrTruthy, isEmpty_false_of_ne hne],
      rfl, ?_⟩
    intro h12 hinf
    have hle := hinf.length_le
    have h1 : (redactToken tok).data.length = min 8 tok.data.length + 3 := by
      simp [redactToken]
    have h2 : tok.length = tok.data.length := rfl
    omega

/-- C7 (amended): `list_users` returns one entry per stored user, in
order; for a user whose `intercept_token` is set (non-empty) the entry's
token field is the first 8 characters of the token followed by an ellipsis
and `has_token` is true; otherwise the document is returned unchanged with
`has_token=false`.  For every token of length at least 12 — in particular
every 64-character generated token — the full secret never appears in the
redacted field; for shorter admin-set tokens it does (see the
counterexample), so the claim's "never returns the full secret" required
the length qualification. -/
theorem listUsers_redaction (db : List UserDoc) :
    List.Forall₂ (fun d lu =>
      ((lu : ListedUser).has_token = optStrTruthy d.intercept_token) ∧
      (optStrTruthy d.intercept_token = false → lu.doc = d) ∧
      (∀ tok, d.intercept_token = some tok → tok ≠ "" →
        lu.doc = { d with intercept_token := some (redactToken tok) } ∧
        (redactToken tok).data = tok.data.take 8 ++ ['.', '.', '.'] ∧
        (12 ≤ tok.length → ¬ tok.data <:+: (redactToken tok).data)))
      db (list_users db) := by
  unfold list_users
  rw [List.forall₂_map_right_iff]
  rw [List.forall₂_same]
  intro d _
  exact redact_spec d

theorem listUsers_redaction_witness :
    List.Forall₂ (fun d lu =>
      ((lu : ListedUser).has_token = optStrTruthy d.intercept_token) ∧
      (optStrTruthy d.intercept_token = false → lu.doc = d) ∧
      (∀ tok, d.intercept_token = some tok → tok ≠ "" →
        lu.doc = { d with intercept_token := some (redactToken tok) } ∧
        (redactToken tok).data = tok.data.take 8 ++ ['.', '.', '.'] ∧
        (12 ≤ tok.length → ¬ tok.data <:+: (redactToken tok).data)))
      [⟨"a@b.com", none, none, some "0123456789abcdef", none, none, none,
        none⟩, ⟨"c@d.com", none, none, none, none, none, none, none⟩]
      (list_users [⟨"a@b.com", none, none, some "0123456789abcdef", none,
        none, none, none⟩, ⟨"c@d.com", none, none, none, none, none, none,
        none⟩]) :=
  listUsers_redaction _

/-! ## Dictionary and `$set` lemmas for `update_user` -/

theorem nonAllowedFrame_refl (d : UserDoc) : nonAllowedFrame d d :=
  ⟨rfl, rfl, rfl, rfl, rfl⟩

theorem setField_frame {kv : String × FieldVal} (d : UserDoc)
    (h : allowed_fields.contains kv.1 = true) :
    nonAllowedFrame d (setField d kv) := by
  obtain ⟨k, v⟩ := kv
  have hk : k = "active" ∨ k = "verified" ∨ k = "intercept_token" := by
    simpa [allowed_fields] using h
  rcases hk with rfl | rfl | rfl <;> cases v <;>
    exact ⟨rfl, rfl, rfl, rfl, rfl⟩

theorem applySet_frame (u : List (String × FieldVal))
    (hu : ∀ kv ∈ u, allowed_fields.contains kv.1 = true) (d : UserDoc) :
    nonAllowedFrame d (applySet d u) := by
  induction u generalizing d with
  | nil => exact nonAllowedFrame_refl d
  | cons kv rest ih =>
    have h1 := setField_frame d (hu kv (List.mem_cons_self _ _))
    have h2 := ih (fun x hx => hu x (List.mem_cons_of_mem _ hx)) (setField d kv)
    exact ⟨h2.1.trans h1.1, h2.2.1.trans h1.2.1, h2.2.2.1.trans h1.2.2.1,
      h2.2.2.2.1.trans h1.2.2.2.1, h2.2.2.2.2.trans h1.2.2.2.2⟩

theorem mem_setKey {u : List (String × FieldVal)} {k : String} {v : FieldVal} :
    ∀ kv ∈ setKey u k v, kv.1 = k ∨ kv ∈ u := by
  induction u with
  | nil =>
    intro kv hkv
    simp [setKey] at hkv
    simp [hkv]
  | cons x rest ih =>
    intro kv hkv
    by_cases hx : x.1 == k
    · simp only [setKey, hx, if_true] at hkv
      rcases List.mem_cons.mp hkv with rfl | hkv
      · exact Or.inl rfl
      · exact Or.inr (List.mem_cons_of_mem _ hkv)
    · simp only [setKey, hx, Bool.false_eq_true, if_false] at hkv
      rcases List.mem_cons.mp hkv with rfl | hkv
      · exact Or.inr (List.mem_cons_self _ _)
      · rcases ih kv hkv with h | h
        · exact Or.inl h
        · exact Or.inr (List.mem_cons_of_mem _ h)

theorem setKey_ne_nil (u : List (String × FieldVal)) (k : String)
    (v : FieldVal) : setKey u k v ≠ [] := by
  cases u with
  | nil => simp [setKey]
  | cons x rest =>
    by_cases hx : x.1 == k <;> simp [setKey, hx]

theorem lookupKey_setKey_self (u : List (String × FieldVal)) (k : String)
    (v : FieldVal) : lookupKey (setKey u k v) k = some v := by
  induction u with
  | nil => simp [setKey, lookupKey]
  | cons x rest ih =>
    by_cases hx : x.1 == k
    · simp [setKey, hx, lookupKey]
    · simp only [setKey, hx, Bool.false_eq_true, if_false]
      simpa [lookupKey, List.find?_cons_of_neg, hx] using ih

theorem keys_setKey_subset {u : List (String × FieldVal)} {k x : String}
    {v : FieldVal} (hx : x ∈ (setKey u k v).map Prod.fst) :
    x = k ∨ x ∈ u.map Prod.fst := by
  obtain ⟨kv, hkv, rfl⟩ := List.mem_map.mp hx
  rcases mem_setKey kv hkv with h | h
  · exact Or.inl h
  · exact Or.inr (List.mem_map_of_mem _ h)

theorem keys_nodup_setKey {u : List (String × FieldVal)} {k : String}
    {v : FieldVal} (h : (u.map Prod.fst).Nodup) :
    ((setKey u k v).map Prod.fst).Nodup := by
  induction u with
  | nil => simp [setKey]
  | cons x rest ih =>
    rw [List.map_cons, List.nodup_cons] at h
    by_cases hx : x.1 == k
    · have hxk : x.1 = k := beq_iff_eq.mp hx
      simp only [setKey, hx, if_true, List.map_cons, List.nodup_cons]
      exact ⟨hxk ▸ h.1, h.2⟩
    · simp only [setKey, hx, Bool.false_eq_true, if_false, List.map_cons,
        List.nodup_cons]
      refine ⟨?_, ih h.2⟩
      intro hmem
      rcases keys_setKey_subset hmem with rfl | hmem
      · exact absurd (by simp) hx
      · exact h.1 hmem

theorem setField_verified {k : String} {v : FieldVal}
    (hk : k ≠ "verified") (d : UserDoc) :
    (setField d (k, v)).verified = d.verified := by
  unfold setField
  split_ifs with h1 h2 h3 h4 h5 <;> first
    | (exact absurd h2 hk)
    | (cases v <;> rfl)
    | rfl

theorem applySet_verified_not_mem {u : List (String × FieldVal)}
    (h : "verified" ∉ u.map Prod.fst) :
    ∀ d : UserDoc, (applySet d u).verified = d.verified := by
  induction u with
  | nil => intro d; rfl
  | cons kv rest ih =>
    intro d
    rw [List.map_cons] at h
    have hk : kv.1 ≠ "verified" := fun he =>
      h (he ▸ List.mem_cons_self _ _)
    have hrest : "verified" ∉ rest.map Prod.fst := fun hm =>
      h (List.mem_cons_of_mem _ hm)
    show (applySet (setField d kv) rest).verified = d.verified
    rw [ih hrest]
    obtain ⟨k, v⟩ := kv
    exact setField_verified (by simpa using hk) d

theorem applySet_verified_true {u : List (String × FieldVal)}
    (hl : lookupKey u "verified" = some (.b true))
    (hn : (u.map Prod.fst).Nodup) :
    ∀ d : UserDoc, (applySet d u).verified = some true := by
  induction u with
  | nil => simp [lookupKey] at hl
  | cons kv rest ih =>
    intro d
    obtain ⟨k, v⟩ := kv
    rw [List.map_cons, List.nodup_cons] at hn
    by_cases hk : k = "verified"
    · subst hk
      have hv : v = .b true := by
        simpa [lookupKey, List.find?_cons_of_pos] using hl
      subst hv
      show (applySet (setField d ("verified", .b true)) rest).verified =
        some true
      rw [applySet_verified_not_mem (by simpa using hn.1)]
      rfl
    · have hl' : lookupKey rest "verified" = some (.b true) := by
        have : (("verified" : String) == k) = false := by
          simp [beq_iff_eq]
          exact fun he => hk he.symm
        simpa [lookupKey, List.find?_cons_of_neg, hk] using hl
      exact ih hl' hn.2 (setField d (k, v))

theorem find?_filter_of_imp {α : Type} {p q : α → Bool}
    (h : ∀ x, p x = true → q x = true) (l : List α) :
    (l.filter q).find? p = l.find? p := by
  induction l with
  | nil => rfl
  | cons x rest ih =>
    by_cases hq : q x = true
    · rw [List.filter_cons_of_pos hq]
      by_cases hp : p x = true
      · rw [List.find?_cons_of_pos _ hp, List.find?_cons_of_pos _ hp]
      · rw [List.find?_cons_of_neg _ hp, List.find?_cons_of_neg _ hp]
        exact ih
    · have hp : ¬ p x = true := fun hp => hq (h x hp)
      rw [List.filter_cons_of_neg (by simpa using hq),
        List.find?_cons_of_neg _ hp]
      exact ih

theorem effective_updates_allowed (updates : List (String × FieldVal)) :
    ∀ kv ∈ effective_updates updates, allowed_fields.contains kv.1 = true := by
  intro kv hkv
  simp only [effective_updates] at hkv
  split at hkv
  · rcases mem_setKey kv hkv with h | h
    · rw [h]
      decide
    · exact (List.mem_filter.mp h).2
  · exact (List.mem_filter.mp hkv).2

theorem applyFirst_forall₂ {em : String} {f : UserDoc → UserDoc}
    (hf : ∀ d, nonAllowedFrame d (f d)) :
    ∀ db : List UserDoc, List.Forall₂ nonAllowedFrame db (applyFirst em f db).1 := by
  intro db
  induction db with
  | nil => exact List.Forall₂.nil
  | cons d rest ih =>
    by_cases hd : (d.email == em) = true
    · simp only [applyFirst, hd, if_true]
      exact List.Forall₂.cons (hf d)
        (List.forall₂_same.mpr (fun x _ => nonAllowedFrame_refl x))
    · simp only [applyFirst, hd, Bool.false_eq_true, if_false]
      exact List.Forall₂.cons (nonAllowedFrame_refl d) ih

theorem lookupKey_filter_allowed (updates : List (String × FieldVal)) :
    lookupKey (updates.filter (fun kv => allowed_fields.contains kv.1))
      "intercept_token" = lookupKey updates "intercept_token" := by
  unfold lookupKey
  rw [find?_filter_of_imp]
  intro kv hkv
  have : kv.1 = "intercept_token" := by simpa using hkv
  rw [this]
  decide

/-- C8: `update_user` applies only fields from the allow-list
`{active, verified, intercept_token}`: every document of the result agrees
with its original on `email`, `verification_code`,
`verification_code_expires`, `created_at` and `last_logged_in`
(`nonAllowedFrame`); and whenever the payload (with unique keys, as any
Python dict has) carries a non-empty `intercept_token`, the matched
document's `verified` is set to true even when `verified` was not
supplied. -/
theorem updateUser_allowlist_and_verified (db : List UserDoc)
    (email : String) (updates : List (String × FieldVal)) :
    List.Forall₂ nonAllowedFrame db (update_user db email updates).1 ∧
    ((updates.map Prod.fst).Nodup →
      ∀ v, lookupKey updates "intercept_token" = some v →
        fieldTruthy v = true →
        ∀ pre d post, db = pre ++ d :: post →
          (∀ x ∈ pre, x.email ≠ lower email) → d.email = lower email →
          ∃ d2, (update_user db email updates).1 = pre ++ d2 :: post ∧
            d2.verified = some true) := by
  constructor
  · simp only [update_user]
    split
    · exact List.forall₂_same.mpr (fun x _ => nonAllowedFrame_refl x)
    · exact applyFirst_forall₂
        (fun d => applySet_frame _ (effective_updates_allowed updates) d) db
  · intro hnodup v hv htr pre d post hdb hpre hdem
    have hcond : (lookupKey
        (updates.filter (fun kv => allowed_fields.contains kv.1))
        "intercept_token").any fieldTruthy = true := by
      rw [lookupKey_filter_allowed, hv]
      simpa using htr
    have heff : effective_updates updates =
        setKey (updates.filter (fun kv => allowed_fields.contains kv.1))
          "verified" (.b true) := by
      simp only [effective_updates]
      rw [if_pos hcond]
    have hne : effective_updates updates ≠ [] := by
      rw [heff]
      exact setKey_ne_nil _ _ _
    have hvtrue : ∀ d0 : UserDoc,
        (applySet d0 (effective_updates updates)).verified = some true := by
      intro d0
      apply applySet_verified_true
      · rw [heff]
        exact lookupKey_setKey_self _ _ _
      · rw [heff]
        apply keys_nodup_setKey
        exact hnodup.sublist (List.Sublist.map _ (List.filter_sublist _))
    refine ⟨applySet d (effective_updates updates), ?_, hvtrue d⟩
    simp only [update_user]
    rw [if_neg (by simpa using hne)]
    rw [hdb, applyFirst_split hpre hdem post]

theorem updateUser_allowlist_and_verified_witness :
    List.Forall₂ nonAllowedFrame
      [(⟨"a@b.com", some "1", some 2, none, none, none, some 3, some 4⟩ :
        UserDoc)]
      (update_user [⟨"a@b.com", some "1", some 2, none, none, none, some 3,
        some 4⟩] "a@b.com"
        [("intercept_token", FieldVal.s "abc123"),
         ("email", FieldVal.s "evil")]).1 ∧
    ∃ d2, (update_user [⟨"a@b.com", some "1", some 2, none, none, none,
        some 3, some 4⟩] "a@b.com"
        [("intercept_token", FieldVal.s "abc123"),
         ("email", FieldVal.s "evil")]).1 = [] ++ d2 :: [] ∧
      d2.verified = some true :=
  ⟨(updateUser_allowlist_and_verified _ _ _).1,
   (updateUser_allowlist_and_verified _ _ _).2 (by decide)
     (FieldVal.s "abc123") (by decide) (by decide) [] _ [] rfl (by simp)
     (by decide)⟩

/-! ## The admin update route -/

theorem model_dump_eq_nil_iff (p : UserUpdatePayload) :
    model_dump p = [] ↔
      p = { active := none, verified := none, intercept_token := none } := by
  rcases p with ⟨a, v, t⟩
  cases a <;> cases v <;> cases t <;> simp [model_dump]

theorem filter_model_dump (p : UserUpdatePayload) :
    (model_dump p).filter (fun kv => allowed_fields.contains kv.1) =
      model_dump p := by
  rcases p with ⟨a, v, t⟩
  cases a <;> cases v <;> cases t <;> simp [model_dump, allowed_fields]

theorem effective_updates_ne_nil {u : List (String × FieldVal)}
    (hu : u.filter (fun kv => allowed_fields.contains kv.1) ≠ []) :
    effective_updates u ≠ [] := by
  simp only [effective_updates]
  split
  · exact setKey_ne_nil _ _ _
  · exact hu

/-- C9 counterexample: a no-op update on an existing user — the record with
that email was matched, but all supplied fields already had the requested
values — is reported as NotFound (`modified_count == 0`), refuting the
claim's "reports success whenever a record with that email was matched". -/
theorem updateUser_noop_counterexample :
    (route_update_user [⟨"a@b.com", none, none, none, none, some true, none,
        none⟩] "a@b.com" { active := some true }).2 = AdminResult.notFound ∧
    (findDocByEmail [⟨"a@b.com", none, none, none, none, some true, none,
        none⟩] "a@b.com").isSome = true := by decide

/-- C9 (amended): the PATCH route rejects an empty effective update set
with BadRequest; otherwise it reports NotFound exactly when the `$set`
modified no document — either no record with that email exists, or the
matched record already carried every supplied value — and reports success
exactly when at least one field of the matched record changed.  (The
route's own 404 detail reads "User not found or no changes made".) -/
theorem updateUser_route_status (db : List UserDoc) (email : String)
    (p : UserUpdatePayload) :
    ((route_update_user db email p).2 = AdminResult.badRequest ↔
      p = { active := none, verified := none, intercept_token := none }) ∧
    (p ≠ { active := none, verified := none, intercept_token := none } →
      (((route_update_user db email p).2 = AdminResult.notFound ↔
        ∀ d, findDocByEmail db email = some d →
          applySet d (effective_updates (model_dump p)) = d) ∧
       ((route_update_user db email p).2 = AdminResult.ok ↔
        ∃ d, findDocByEmail db email = some d ∧
          applySet d (effective_updates (model_dump p)) ≠ d))) := by
  by_cases hp : p = (⟨none, none, none⟩ : UserUpdatePayload)
  · subst hp
    constructor
    · simp [route_update_user, model_dump]
    · intro h
      exact absurd rfl h
  · have hdump : model_dump p ≠ [] := fun h =>
      hp ((model_dump_eq_nil_iff p).mp h)
    have hne : effective_updates (model_dump p) ≠ [] :=
      effective_updates_ne_nil (by rw [filter_model_dump]; exact hdump)
    have hroute : route_update_user db email p =
        (if (update_user db email (model_dump p)).2 = true
         then ((update_user db email (model_dump p)).1, AdminResult.ok)
         else ((update_user db email (model_dump p)).1,
               AdminResult.notFound)) := by
      simp only [route_update_user]
      rw [if_neg (by simpa using hdump)]
    have hupd : update_user db email (model_dump p) =
        applyFirst (lower email)
          (fun d => applySet d (effective_updates (model_dump p))) db := by
      simp only [update_user]
      rw [if_neg (by simpa using hne)]
    cases hf : findDocByEmail db email with
    | none =>
      have hall : ∀ x ∈ db, x.email ≠ lower email := by
        have h0 := List.find?_eq_none.mp hf
        intro x hx
        simpa using h0 x hx
      have happ := @applyFirst_of_not_mem (lower email)
        (fun d => applySet d (effective_updates (model_dump p))) db hall
      rw [hroute, hupd, happ]
      constructor
      · simp [hp]
      · intro _
        constructor
        · simp [hf]
        · simp [hf]
    | some d =>
      have hf' : db.find? (fun x => x.email == lower email) = some d := hf
      obtain ⟨pre, post, hdb, hpre, hpd⟩ := find?_split hf'
      have hpre' : ∀ x ∈ pre, x.email ≠ lower email := fun x hx => by
        simpa using hpre x hx
      have hdem : d.email = lower email := by simpa using hpd
      subst hdb
      rw [hroute, hupd, applyFirst_split hpre' hdem post]
      by_cases hch : applySet d (effective_updates (model_dump p)) = d
      · constructor
        · simp [hp, hch]
        · intro _
          constructor
          · constructor
            · intro _ d' hd'
              cases hd'
              exact hch
            · intro _
              simp [hch]
          · simp [hch]
      · constructor
        · simp [hp, hch]
        · intro _
          constructor
          · simp [hch]
          · simp [hch]

theorem updateUser_route_status_witness :
    ((route_update_user [⟨"a@b.com", none, none, none, none, some true, none,
        none⟩] "a@b.com" { active := some false }).2 = AdminResult.ok ↔
      ∃ d, findDocByEmail [⟨"a@b.com", none, none, none, none, some true,
          none, none⟩] "a@b.com" = some d ∧
        applySet d (effective_updates (model_dump
          ({ active := some false } : UserUpdatePayload))) ≠ d) :=
  ((updateUser_route_status _ _ _).2 (by decide)).2

/-! ## The public verify route strips the submitted code -/

theorem isStripChar_false_of_digit {ch : Char} (h : ch.isDigit = true) :
    isStripChar ch = false := by
  cases hs : isStripChar ch
  · rfl
  · exfalso
    simp only [isStripChar, Bool.or_eq_true, beq_iff_eq] at hs
    rcases hs with ((((rfl | rfl) | rfl) | rfl) | rfl) | rfl <;>
      exact absurd h (by decide)

theorem dropWhile_append_all {p : Char → Bool} {w l : List Char}
    (hw : ∀ x ∈ w, p x = true)
    (hl : ∀ hd tl, l = hd :: tl → p hd = false) :
    (w ++ l).dropWhile p = l := by
  induction w with
  | nil =>
    simp only [List.nil_append]
    cases l with
    | nil => rfl
    | cons hd tl =>
      rw [List.dropWhile_cons, if_neg (by simp [hl hd tl rfl])]
  | cons x xs ih =>
    rw [List.cons_append, List.dropWhile_cons,
      if_pos (hw x (List.mem_cons_self _ _))]
    exact ih (fun y hy => hw y (List.mem_cons_of_mem _ hy))

theorem pyStrip_sandwich (w1 c w2 : String)
    (h1 : ∀ x ∈ w1.data, isStripChar x = true)
    (h2 : ∀ x ∈ w2.data, isStripChar x = true)
    (hc : c.data ≠ [])
    (hcd : ∀ x ∈ c.data, isStripChar x = false) :
    pyStrip (w1 ++ c ++ w2) = c := by
  unfold pyStrip
  have hdata : (w1 ++ c ++ w2).data = w1.data ++ (c.data ++ w2.data) := by
    rw [String.data_append, String.data_append, List.append_assoc]
  rw [hdata]
  rw [dropWhile_append_all h1 ?hl1]
  case hl1 =>
    intro hd tl hl
    have hmem : hd ∈ c.data := by
      cases hcda : c.data with
      | nil => exact absurd hcda hc
      | cons y ys =>
        rw [hcda, List.cons_append] at hl
        injection hl with hy _
        subst hy
        exact List.mem_cons_self _ _
    exact hcd hd hmem
  rw [List.reverse_append]
  rw [dropWhile_append_all (fun x hx => h2 x (List.mem_reverse.mp hx)) ?hl2]
  case hl2 =>
    intro hd tl hl
    have hmem : hd ∈ c.data :=
      List.mem_reverse.mp (hl ▸ List.mem_cons_self hd tl)
    exact hcd hd hmem
  rw [List.reverse_reverse]

/-- C10: the public verify endpoint strips leading and trailing whitespace
from the submitted code (`request_data.code.strip()`) before the lookup, so
a submission that differs from the stored 6-digit code only by surrounding
whitespace behaves exactly like submitting the code itself — same result,
same state — while the underlying comparison of the stripped code against
the stored code remains the exact string equality of `verify_code`. -/
theorem routeVerify_strip_equiv (db : List UserDoc) (email c w1 w2 : String)
    (now : Nat) (entropy : List Nat)
    (h1 : ∀ x ∈ w1.data, isStripChar x = true)
    (h2 : ∀ x ∈ w2.data, isStripChar x = true)
    (hlen : c.length = 6) (hdig : ∀ x ∈ c.data, x.isDigit = true) :
    route_verify_code db email (w1 ++ c ++ w2) now entropy =
      verify_code db email c now entropy := by
  unfold route_verify_code
  rw [pyStrip_sandwich w1 c w2 h1 h2 ?hne ?hcd]
  case hne =>
    intro h0
    have hl0 : c.length = 0 := by
      rw [show c.length = c.data.length from rfl, h0]
      rfl
    omega
  case hcd =>
    intro x hx
    exact isStripChar_false_of_digit (hdig x hx)

theorem routeVerify_strip_equiv_witness :
    route_verify_code [⟨"a@b.com", some "123456", some 1000, none, none,
        none, none, none⟩] "a@b.com" (" " ++ "123456" ++ "\n ") 1000 [] =
      verify_code [⟨"a@b.com", some "123456", some 1000, none, none, none,
        none, none⟩] "a@b.com" "123456" 1000 [] :=
  routeVerify_strip_equiv _ _ _ _ _ _ _ (by decide) (by decide) (by decide)
    (by decide)
